import Mathlib

/-!
Shallow embedding of the connection pool in `src/main.rs`
(`PostgresPool` with `new`, `get_connection`, `return_connection`),
together with proofs about the behaviour of these operations.

Modelling conventions:
* A `tokio_postgres::Client` is opaque to the pool, so a session is
  identified by a natural number: the position in the order in which the
  factory (`tokio_postgres::connect`) opened it.
* `Arc<Mutex<Vec<Client>>>` becomes a plain `List Client` threaded through
  the operations as explicit state; each pool operation runs entirely inside
  one lock acquisition in the source, so sequential state passing is exact.
* `usize` subtraction in `let index = connections.len() - 1;` is
  profile-dependent in Rust: with overflow checks (the default dev profile)
  an underflow panics; in release builds it wraps modulo 2^64.  The
  embedding takes the overflow-check flag as an explicit parameter and
  returns a distinguished `panic` outcome for the checked underflow.  In
  the wrapping case the wrapped index is computed but discarded by the
  source (the `pop` on the empty vector yields `None`), so it never flows
  into an observable value.
-/

namespace RustPool

/-- A session handle (`tokio_postgres::Client`), identified by the order in
which the factory opened it. -/
abbrev Client := Nat

/-- The `PostgresPool` struct of `src/main.rs`: the shared
`Vec<Client>` of idle connections, the `max_connections` bound, and the
`database_url` string. -/
structure PostgresPool where
  connections : List Client
  max_connections : Nat
  database_url : String
deriving Repr, DecidableEq

/-- Outcome of `PostgresPool::get_connection`: either the checked-subtraction
panic on `connections.len() - 1`, or `Ok((index, client))`, or
`Err(anyhow!(msg))`. -/
inductive GetConnResult where
  | panic : GetConnResult
  | ok (index : Nat) (client : Client) : GetConnResult
  | err (msg : String) : GetConnResult
deriving Repr, DecidableEq

/-- `PostgresPool::get_connection`, returning the outcome together with the
pool state after the call.  `overflow_checks` selects the Rust profile
semantics of `connections.len() - 1` (see module comment).  Following the
source: the index is computed first; `pop()` removes the last element of the
`Vec` when it is non-empty; when the `Vec` is empty and
`connections.len() < self.max_connections` the block yields `None` and the
function falls through to `Err("Max connections reached")`; when the `Vec`
is empty and the length is not below the bound it returns the same error
from inside the block. -/
def get_connection (overflow_checks : Bool) (p : PostgresPool) :
    GetConnResult × PostgresPool :=
  if h : p.connections = [] then
    -- `connections.len() - 1` underflows here.
    if overflow_checks then
      (GetConnResult.panic, p)
    else if p.connections.length < p.max_connections then
      -- the block yields `None`; the later `if let Some` fails
      (GetConnResult.err "Max connections reached", p)
    else
      (GetConnResult.err "Max connections reached", p)
  else
    -- `pop()` returns the last element; `index` was `len - 1` before the pop
    (GetConnResult.ok (p.connections.length - 1) (p.connections.getLast h),
      { p with connections := p.connections.dropLast })

/-- `PostgresPool::return_connection`: unconditionally push the client onto
the end of the `Vec`.  The Rust function returns `()`; it has no error
channel. -/
def return_connection (p : PostgresPool) (client : Client) : PostgresPool :=
  { p with connections := p.connections ++ [client] }

/-- A pool state together with the running count of sessions the factory has
ever opened.  Only `PostgresPool::new` contains a call to
`tokio_postgres::connect`; `get_connection` and `return_connection` do not,
so they leave `opened` unchanged. -/
structure TracedPool where
  pool : PostgresPool
  opened : Nat
deriving Repr, DecidableEq

/-- The construction loop `for _ in 0..max_connections` of
`PostgresPool::new`: each iteration calls `tokio_postgres::connect` (opening
one fresh session, identified by the open count so far) and pushes the
client onto the `Vec`.  Returns the final `Vec` and the number of factory
opens performed. -/
def newLoop : Nat → List Client × Nat
  | 0 => ([], 0)
  | n + 1 =>
    let (conns, opened) := newLoop n
    (conns ++ [opened], opened + 1)

/-- `PostgresPool::new`: runs the construction loop (opening
`max_connections` sessions) and builds the struct. -/
def PostgresPool.new (database_url : String) (max_connections : Nat) :
    TracedPool :=
  let (conns, opened) := newLoop max_connections
  { pool := { connections := conns
              max_connections := max_connections
              database_url := database_url }
    opened := opened }

/-! ### Basic characterisation lemmas -/

theorem newLoop_eq (n : Nat) : newLoop n = (List.range n, n) := by
  induction n with
  | zero => rfl
  | succ n ih => simp [newLoop, ih, List.range_succ]

theorem new_pool_connections (url : String) (m : Nat) :
    (PostgresPool.new url m).pool.connections = List.range m := by
  simp [PostgresPool.new, newLoop_eq]

theorem new_opened (url : String) (m : Nat) :
    (PostgresPool.new url m).opened = m := by
  simp [PostgresPool.new, newLoop_eq]

theorem new_max (url : String) (m : Nat) :
    (PostgresPool.new url m).pool.max_connections = m := by
  simp [PostgresPool.new, newLoop_eq]

theorem get_connection_empty (oc : Bool) (p : PostgresPool)
    (h : p.connections = []) :
    get_connection oc p =
      ((if oc then GetConnResult.panic
        else GetConnResult.err "Max connections reached"), p) := by
  cases oc <;> simp [get_connection, h]

theorem get_connection_nonempty (oc : Bool) (p : PostgresPool)
    (h : p.connections ≠ []) :
    get_connection oc p =
      (GetConnResult.ok (p.connections.length - 1) (p.connections.getLast h),
        { p with connections := p.connections.dropLast }) := by
  simp [get_connection, h]

/-! ### Interleavings of acquire and release

The demonstrator in `main` spawns tasks that each call `get_connection`, use
the client, and call `return_connection`.  Every pool operation runs inside
one acquisition of the mutex, so an arbitrary concurrent execution is an
arbitrary sequential interleaving of atomic `get_connection` and
`return_connection` calls.  A caller state keeps, besides the pool, the
multiset of clients currently lent out (held by callers), so that a release
step returns one of the sessions previously acquired and not yet returned,
as in the demonstrator.  A failing acquire leaves the pool state unchanged
(under overflow checks the whole process would abort at that point, so the
states observed afterwards are a superset of the real ones). -/

/-- Pool state plus the list of clients currently lent out to callers. -/
structure SimState where
  pool : PostgresPool
  held : List Client
deriving Repr, DecidableEq

/-- One caller operation: acquire via `get_connection`, or return the i-th
currently held client via `return_connection`.  A `release i` with `i` out
of range selects no held session and is a no-op (such a step is not part of
any interleaving in which each release returns a held session). -/
inductive Op where
  | acquire : Op
  | release (i : Nat) : Op
deriving Repr, DecidableEq

/-- Effect of one operation on the simulation state. -/
def stepOp (oc : Bool) (op : Op) (s : SimState) : SimState :=
  match op with
  | Op.acquire =>
    match get_connection oc s.pool with
    | (GetConnResult.ok _ c, pNext) => { pool := pNext, held := c :: s.held }
    | (_, pNext) => { s with pool := pNext }
  | Op.release i =>
    match s.held[i]? with
    | some c =>
        { pool := return_connection s.pool c, held := s.held.eraseIdx i }
    | none => s

/-- Run a list of operations from a state. -/
def runOps (oc : Bool) : List Op → SimState → SimState
  | [], s => s
  | op :: ops, s => runOps oc ops (stepOp oc op s)

/-- The state right after `PostgresPool::new`: no client lent out yet. -/
def initState (url : String) (m : Nat) : SimState :=
  { pool := (PostgresPool.new url m).pool, held := [] }

/-- A failing acquire (empty idle vector) leaves the state unchanged. -/
theorem stepOp_acquire_empty (oc : Bool) (s : SimState)
    (h : s.pool.connections = []) : stepOp oc Op.acquire s = s := by
  cases oc <;> simp [stepOp, get_connection_empty, h]

/-- A successful acquire moves the last idle session to the held list. -/
theorem stepOp_acquire_nonempty (oc : Bool) (s : SimState)
    (h : s.pool.connections ≠ []) :
    stepOp oc Op.acquire s =
      { pool := { s.pool with connections := s.pool.connections.dropLast }
        held := s.pool.connections.getLast h :: s.held } := by
  simp [stepOp, get_connection_nonempty oc s.pool h]

/-- A release of a held session moves it from the held list back into the
pool (at the end of the `Vec`). -/
theorem stepOp_release_of_getElem (oc : Bool) (s : SimState) (i : Nat)
    (c : Client) (h : s.held[i]? = some c) :
    stepOp oc (Op.release i) s =
      { pool := return_connection s.pool c, held := s.held.eraseIdx i } := by
  simp [stepOp, h]

/-- A release with an out-of-range selector is a no-op on the state. -/
theorem stepOp_release_of_none (oc : Bool) (s : SimState) (i : Nat)
    (h : s.held[i]? = none) : stepOp oc (Op.release i) s = s := by
  simp [stepOp, h]

/-- Removing the element found at index `i` and putting it in front is a
permutation. -/
theorem perm_cons_eraseIdx :
    ∀ {l : List Client} {i : Nat} {c : Client},
      l[i]? = some c → l.Perm (c :: l.eraseIdx i) := by
  intro l
  induction l with
  | nil => intro i c h; simp at h
  | cons a t ih =>
    intro i c h
    cases i with
    | zero =>
      simp only [List.getElem?_cons_zero, Option.some.injEq] at h
      subst h
      simp [List.eraseIdx]
    | succ i =>
      simp only [List.getElem?_cons_succ] at h
      have h1 : (a :: t).Perm (a :: (c :: t.eraseIdx i)) :=
        List.Perm.cons a (ih h)
      have h2 : (a :: (c :: t.eraseIdx i)).Perm (c :: (a :: t.eraseIdx i)) :=
        List.Perm.swap c a (t.eraseIdx i)
      exact h1.trans h2

/-- Each step preserves the total number of sessions tracked by the pool:
idle plus lent out. -/
theorem stepOp_length (oc : Bool) (op : Op) (s : SimState) :
    (stepOp oc op s).pool.connections.length + (stepOp oc op s).held.length =
      s.pool.connections.length + s.held.length := by
  match op with
  | Op.acquire =>
    by_cases h : s.pool.connections = []
    · rw [stepOp_acquire_empty oc s h]
    · rw [stepOp_acquire_nonempty oc s h]
      have hlen : 0 < s.pool.connections.length := List.length_pos.mpr h
      simp [List.length_dropLast]
      omega
  | Op.release i =>
    match hget : s.held[i]? with
    | some c =>
      rw [stepOp_release_of_getElem oc s i c hget]
      have hi : i < s.held.length := (List.getElem?_eq_some.mp hget).1
      have hlen := List.length_eraseIdx_add_one hi
      simp [return_connection]
      omega
    | none => rw [stepOp_release_of_none oc s i hget]

/-- Each step preserves the combined pool contents (idle followed by lent
out) up to permutation. -/
theorem stepOp_perm (oc : Bool) (op : Op) (s : SimState) :
    ((stepOp oc op s).pool.connections ++ (stepOp oc op s).held).Perm
      (s.pool.connections ++ s.held) := by
  match op with
  | Op.acquire =>
    by_cases h : s.pool.connections = []
    · rw [stepOp_acquire_empty oc s h]
    · rw [stepOp_acquire_nonempty oc s h]
      have hsplit := List.dropLast_append_getLast h
      have heq : s.pool.connections.dropLast ++
            s.pool.connections.getLast h :: s.held
          = s.pool.connections ++ s.held := by
        conv_rhs => rw [← hsplit]
        simp
      rw [heq]
  | Op.release i =>
    match hget : s.held[i]? with
    | some c =>
      rw [stepOp_release_of_getElem oc s i c hget]
      have hperm : s.held.Perm (c :: s.held.eraseIdx i) :=
        perm_cons_eraseIdx hget
      have heq : (s.pool.connections ++ [c]) ++ s.held.eraseIdx i
          = s.pool.connections ++ (c :: s.held.eraseIdx i) := by simp
      simp only [return_connection, heq]
      exact (List.Perm.append_left _ hperm).symm
    | none => rw [stepOp_release_of_none oc s i hget]

/-- Running a trace preserves the idle-plus-held session count. -/
theorem runOps_length (oc : Bool) (ops : List Op) (s : SimState) :
    (runOps oc ops s).pool.connections.length +
        (runOps oc ops s).held.length =
      s.pool.connections.length + s.held.length := by
  induction ops generalizing s with
  | nil => rfl
  | cons op ops ih =>
    rw [runOps, ih (stepOp oc op s), stepOp_length]

/-- Running a trace permutes the idle-plus-held contents. -/
theorem runOps_perm (oc : Bool) (ops : List Op) (s : SimState) :
    ((runOps oc ops s).pool.connections ++ (runOps oc ops s).held).Perm
      (s.pool.connections ++ s.held) := by
  induction ops generalizing s with
  | nil => exact List.Perm.refl _
  | cons op ops ih =>
    exact (ih (stepOp oc op s)).trans (stepOp_perm oc op s)

/-! ### Sequences of acquires, and acquire/release pairs -/

/-- `M` consecutive calls to `get_connection` with nobody releasing:
the list of outcomes and the final pool. -/
def runAcquires (oc : Bool) : Nat → PostgresPool → List GetConnResult × PostgresPool
  | 0, p => ([], p)
  | n + 1, p =>
    let (r, pNext) := get_connection oc p
    let (rs, pLast) := runAcquires oc n pNext
    (r :: rs, pLast)

/-- Whether an acquire outcome is `Ok(..)`. -/
def GetConnResult.isOk : GetConnResult → Bool
  | GetConnResult.ok _ _ => true
  | _ => false

/-- Whether an acquire outcome is the `Err("Max connections reached")`
produced by `get_connection`. -/
def GetConnResult.isMaxErr : GetConnResult → Bool
  | GetConnResult.err msg => msg == "Max connections reached"
  | _ => false

theorem runAcquires_succ (oc : Bool) (M : Nat) (p : PostgresPool) :
    runAcquires oc (M + 1) p =
      ((get_connection oc p).1 ::
          (runAcquires oc M (get_connection oc p).2).1,
        (runAcquires oc M (get_connection oc p).2).2) := rfl

theorem get_connection_empty_false (p : PostgresPool)
    (h : p.connections = []) :
    get_connection false p = (GetConnResult.err "Max connections reached", p) :=
  get_connection_empty false p h

theorem get_connection_empty_true (p : PostgresPool)
    (h : p.connections = []) :
    get_connection true p = (GetConnResult.panic, p) :=
  get_connection_empty true p h

@[simp] theorem isOk_ok (i c : Nat) :
    (GetConnResult.ok i c).isOk = true := rfl

@[simp] theorem isOk_err (m : String) :
    (GetConnResult.err m).isOk = false := rfl

@[simp] theorem isMaxErr_ok (i c : Nat) :
    (GetConnResult.ok i c).isMaxErr = false := rfl

@[simp] theorem isMaxErr_err_max :
    (GetConnResult.err "Max connections reached").isMaxErr = true := by
  decide

/-- In release semantics, a run of `M` acquires from a pool with `n` idle
connections yields `min M n` successes and `M - n` copies of the
"Max connections reached" error, in that order. -/
theorem runAcquires_counts (M : Nat) (p : PostgresPool) :
    ((runAcquires false M p).1.countP (fun r => r.isOk) =
        min M p.connections.length) ∧
      ((runAcquires false M p).1.countP (fun r => r.isMaxErr) =
        M - p.connections.length) := by
  induction M generalizing p with
  | zero => simp [runAcquires]
  | succ M ih =>
    by_cases h : p.connections = []
    · rw [runAcquires_succ, get_connection_empty_false p h]
      have hlen : p.connections.length = 0 := by simp [h]
      have hc := ih p
      constructor
      · simp [List.countP_cons, hc.1, hlen]
      · simp [List.countP_cons, hc.2, hlen]
    · rw [runAcquires_succ, get_connection_nonempty false p h]
      have hlen : 0 < p.connections.length := List.length_pos.mpr h
      have hc := ih { p with connections := p.connections.dropLast }
      constructor
      · simp [List.countP_cons, hc.1, List.length_dropLast]
        omega
      · simp [List.countP_cons, hc.2, List.length_dropLast]
        omega

/-- `N` sequential pairs: each round calls `get_connection`; on success the
acquired client is handed back through `return_connection`; on failure
nothing is released.  Returns the final traced state and whether every
acquire in the run succeeded. -/
def runPairs (oc : Bool) : Nat → TracedPool → TracedPool × Bool
  | 0, t => (t, true)
  | n + 1, t =>
    match get_connection oc t.pool with
    | (GetConnResult.ok _ c, pNext) =>
      runPairs oc n { pool := return_connection pNext c, opened := t.opened }
    | (_, pNext) =>
      ((runPairs oc n { pool := pNext, opened := t.opened }).1, false)

/-- As long as the pool has at least one idle connection, each
acquire/release pair succeeds and restores the pool state exactly. -/
theorem runPairs_id (oc : Bool) (N : Nat) (t : TracedPool)
    (h : t.pool.connections ≠ []) : runPairs oc N t = (t, true) := by
  induction N with
  | zero => rfl
  | succ N ih =>
    show runPairs oc (N + 1) t = (t, true)
    rw [runPairs, get_connection_nonempty oc t.pool h]
    simp only [return_connection]
    rw [List.dropLast_append_getLast h]
    exact ih

/-- No operation changes the capacity bound stored in the pool. -/
theorem stepOp_max (oc : Bool) (op : Op) (s : SimState) :
    (stepOp oc op s).pool.max_connections = s.pool.max_connections := by
  match op with
  | Op.acquire =>
    by_cases h : s.pool.connections = []
    · rw [stepOp_acquire_empty oc s h]
    · rw [stepOp_acquire_nonempty oc s h]
  | Op.release i =>
    match hget : s.held[i]? with
    | some c => rw [stepOp_release_of_getElem oc s i c hget]; rfl
    | none => rw [stepOp_release_of_none oc s i hget]

/-- No trace changes the capacity bound stored in the pool. -/
theorem runOps_max (oc : Bool) (ops : List Op) (s : SimState) :
    (runOps oc ops s).pool.max_connections = s.pool.max_connections := by
  induction ops generalizing s with
  | nil => rfl
  | cons op ops ih => rw [runOps, ih, stepOp_max]

/-! ## The claims -/

/-- The pool state of the failing input for claim C1: empty idle vector,
capacity 5, so the live session count (at most 5 lent out, here irrelevant)
is strictly below no — the idle store is empty while the pool is under its
cap by the function's own test `connections.len() < self.max_connections`. -/
def emptyUnderCapPool : PostgresPool :=
  { connections := []
    max_connections := 5
    database_url := "postgresql://localhost:5432/database" }

/-- C1: the claim states that with the idle store empty and the live count
strictly below max_size, acquire opens a new session via the factory and
returns it, without failing.  The code does not: in exactly this state
`get_connection` never calls the factory; it returns
`Err("Max connections reached")` under release semantics, and panics on the
underflowing `connections.len() - 1` under debug overflow checks, leaving
the pool unchanged in either case. -/
theorem C1_acquire_under_cap_fails :
    get_connection false emptyUnderCapPool =
        (GetConnResult.err "Max connections reached", emptyUnderCapPool) ∧
      get_connection true emptyUnderCapPool =
        (GetConnResult.panic, emptyUnderCapPool) ∧
      emptyUnderCapPool.connections.length <
        emptyUnderCapPool.max_connections := by
  refine ⟨?_, ?_, ?_⟩
  · exact get_connection_empty_false emptyUnderCapPool rfl
  · exact get_connection_empty_true emptyUnderCapPool rfl
  · decide

/-- C2 counterexample: with max_size = 1 and two acquirers of which none
releases, the second acquirer does not suspend in a FIFO waiter queue — it
fails immediately with `Err("Max connections reached")`, an error outside
the failure modes the claim lists. -/
theorem C2_counterexample :
    (runAcquires false 2 (PostgresPool.new "u" 1).pool).1 =
      [GetConnResult.ok 0 0,
        GetConnResult.err "Max connections reached"] := by
  rfl

/-- C2 (amended): with max_size = K and M > K sequential acquirers of which
none releases, exactly K acquires succeed and the remaining M − K fail
immediately with `Err("Max connections reached")` (under release
semantics); there is no waiter queue and no suspension. -/
theorem C2_cap_enforcement (url : String) (K M : Nat) (hKM : K < M) :
    ((runAcquires false M (PostgresPool.new url K).pool).1.countP
        (fun r => r.isOk) = K) ∧
      ((runAcquires false M (PostgresPool.new url K).pool).1.countP
        (fun r => r.isMaxErr) = M - K) := by
  have hlen : (PostgresPool.new url K).pool.connections.length = K := by
    rw [new_pool_connections]; exact List.length_range K
  have hc := runAcquires_counts M (PostgresPool.new url K).pool
  rw [hlen] at hc
  exact ⟨by rw [hc.1]; omega, hc.2⟩

/-- Witness for C2: K = 1, M = 2. -/
theorem C2_cap_enforcement_witness :
    1 < 2 ∧
      (((runAcquires false 2 (PostgresPool.new "u" 1).pool).1.countP
          (fun r => r.isOk) = 1) ∧
        ((runAcquires false 2 (PostgresPool.new "u" 1).pool).1.countP
          (fun r => r.isMaxErr) = 2 - 1)) :=
  ⟨by decide, C2_cap_enforcement "u" 1 2 (by decide)⟩

/-- C3 counterexample: with the idle vector empty and overflow checks
enabled (the default dev profile), `get_connection` hits the underflow in
`let index = connections.len() - 1;` and panics instead of returning a
value to the caller. -/
theorem C3_counterexample :
    (get_connection true
        { connections := [], max_connections := 5,
          database_url := "db" }).1 = GetConnResult.panic := by
  rfl

/-- C3 (amended): `get_connection` returns a value (Ok or an error) without
panicking on every pool state whose idle vector is non-empty, and on every
state under release (wrapping) semantics; only the combination of an empty
idle vector and overflow checks panics, on the underflow of
`connections.len() - 1`. -/
theorem C3_no_panic (oc : Bool) (p : PostgresPool)
    (h : p.connections ≠ [] ∨ oc = false) :
    (get_connection oc p).1 ≠ GetConnResult.panic := by
  rcases h with h | h
  · rw [get_connection_nonempty oc p h]
    simp
  · subst h
    by_cases he : p.connections = []
    · rw [get_connection_empty_false p he]
      simp
    · rw [get_connection_nonempty false p he]
      simp

/-- Witness for C3: a pool holding idle client 5, with overflow checks. -/
theorem C3_no_panic_witness :
    (({ connections := [5], max_connections := 3,
          database_url := "db" } : PostgresPool).connections ≠ [] ∨
        true = false) ∧
      (get_connection true
          { connections := [5], max_connections := 3,
            database_url := "db" }).1 ≠ GetConnResult.panic :=
  ⟨Or.inl (by decide),
    C3_no_panic true
      { connections := [5], max_connections := 3, database_url := "db" }
      (Or.inl (by decide))⟩

/-- C4 counterexample: immediately after `PostgresPool::new("u", 5)` the
factory has been invoked five times, not zero — construction is eager. -/
theorem C4_counterexample : (PostgresPool.new "u" 5).opened ≠ 0 := by
  rw [new_opened]
  decide

/-- C4 (amended): construction is eager, not lazy: `new` opens exactly
`max_connections` sessions via the factory before returning, and all of
them sit idle in the pool. -/
theorem C4_construction_eager (url : String) (m : Nat) :
    (PostgresPool.new url m).opened = m ∧
      (PostgresPool.new url m).pool.connections.length = m := by
  refine ⟨new_opened url m, ?_⟩
  rw [new_pool_connections]
  exact List.length_range m

/-- C5: for every interleaving of acquire and release operations in which
each release returns a session previously acquired from the pool and not
yet returned, the capacity invariant
`idle.length + in_use_count ≤ max_size` holds at every observation point
(every trace quantified over here is a prefix of a longer trace, so all
observation points are covered), in both overflow-check profiles. -/
theorem C5_capacity_invariant (url : String) (m : Nat) (oc : Bool)
    (ops : List Op) :
    (runOps oc ops (initState url m)).pool.connections.length +
        (runOps oc ops (initState url m)).held.length ≤
      (runOps oc ops (initState url m)).pool.max_connections := by
  have hlen := runOps_length oc ops (initState url m)
  have hmax := runOps_max oc ops (initState url m)
  have hinit : (initState url m).pool.connections.length = m := by
    simp only [initState]
    rw [new_pool_connections]
    exact List.length_range m
  have hinitmax : (initState url m).pool.max_connections = m := by
    simp only [initState]
    exact new_max url m
  have hheld : (initState url m).held.length = 0 := rfl
  rw [hinit, hheld] at hlen
  rw [hmax, hinitmax]
  omega

/-- C6: with max_size = 1, N sequential acquire/release pairs cause exactly
one session ever to be opened by the factory over the whole execution,
construction included; moreover every acquire in the run succeeds. -/
theorem C6_round_trip (oc : Bool) (N : Nat) (url : String) :
    (runPairs oc N (PostgresPool.new url 1)).1.opened = 1 ∧
      (runPairs oc N (PostgresPool.new url 1)).2 = true := by
  have h : (PostgresPool.new url 1).pool.connections ≠ [] := by
    rw [new_pool_connections]
    decide
  rw [runPairs_id oc N _ h]
  exact ⟨new_opened url 1, rfl⟩

/-- C7 counterexample: `new` performs no validation of the configuration:
constructing with max_connections = 0 is not rejected and yields a pool
whose capacity bound is 0, contradicting the claim that a pool only ever
exists with strictly positive max_size. -/
theorem C7_counterexample :
    (PostgresPool.new "u" 0).pool.max_connections = 0 ∧
      (PostgresPool.new "u" 0).pool.connections = [] := by
  exact ⟨new_max "u" 0, by rw [new_pool_connections]; rfl⟩

/-- C7 (amended): construction does not validate the configuration: `new`
accepts every max_connections value, including 0, and returns a pool whose
capacity bound is exactly the given value. -/
theorem C7_no_validation (url : String) (m : Nat) :
    (PostgresPool.new url m).pool.max_connections = m ∧
      (PostgresPool.new url m).pool.database_url = url :=
  ⟨new_max url m, by simp [PostgresPool.new, newLoop_eq]⟩

/-- C8: release is infallible from the caller's point of view:
`return_connection` is a total function with no error outcome; for every
pool state and every returned client it pushes the client onto the end of
the idle vector and leaves everything else unchanged. -/
theorem C8_release_infallible (p : PostgresPool) (c : Client) :
    (return_connection p c).connections = p.connections ++ [c] ∧
      (return_connection p c).max_connections = p.max_connections ∧
      (return_connection p c).database_url = p.database_url :=
  ⟨rfl, rfl, rfl⟩

/-- C9: no session is ever simultaneously in the idle store and lent out:
along every trace of acquires and releases from a fresh pool (in either
overflow-check profile), the idle vector together with the held list stays
duplicate-free, so the two are disjoint and each session is in exactly one
of them.  (This code never destroys sessions.) -/
theorem C9_no_double_residency (url : String) (m : Nat) (oc : Bool)
    (ops : List Op) :
    ((runOps oc ops (initState url m)).pool.connections ++
        (runOps oc ops (initState url m)).held).Nodup ∧
      ∀ c : Client,
        c ∈ (runOps oc ops (initState url m)).pool.connections →
          c ∉ (runOps oc ops (initState url m)).held := by
  have hperm := runOps_perm oc ops (initState url m)
  have hinit : ((initState url m).pool.connections ++
      (initState url m).held).Nodup := by
    simp only [initState]
    rw [new_pool_connections]
    simpa using List.nodup_range m
  have hnodup := hperm.nodup_iff.mpr hinit
  exact ⟨hnodup, fun c hc hh =>
    (List.disjoint_of_nodup_append hnodup) hc hh⟩

/-- C10: idle sessions are reused in LIFO order: from any pool state, in
either overflow-check profile, an acquire performed immediately after
`return_connection p c` yields exactly the just-returned client `c` (at
index equal to the previous idle length) and restores the pool to its prior
state. -/
theorem C10_lifo (oc : Bool) (p : PostgresPool) (c : Client) :
    get_connection oc (return_connection p c) =
      (GetConnResult.ok p.connections.length c, p) := by
  have h : (return_connection p c).connections ≠ [] := by
    simp [return_connection]
  rw [get_connection_nonempty oc _ h]
  have hc : (return_connection p c).connections = p.connections ++ [c] := rfl
  refine Prod.ext ?_ ?_
  · simp only [hc]
    rw [List.getLast_append]
    simp
  · simp only [hc]
    rw [List.dropLast_concat]
    rfl

end RustPool

